import Mathlib

/-!
Verification of the PEFT state-dict filtering utilities
(`src/peft/utils/save_and_load.py`).

The module has two core operations:
* `get_peft_model_state_dict` (extraction): filters a full parameter mapping
  down to the adapter-relevant subset, driven by the adapter descriptor
  (`peft_config.peft_type`, `peft_config.bias`) and the optional
  `modules_to_save` set;
* `set_peft_model_state_dict` (restore): loads a filtered mapping back into a
  model, non-strictly for the main mapping and strictly for the
  `"prompt_embeddings"` entry of prompt-based methods.

Parameter mappings are embedded as association lists of string keys and
tensors, matching Python `dict` semantics (unique keys, insertion order
preserved, assignment updates in place or appends at the end).
-/

set_option autoImplicit false

namespace Peft

/-- A tensor is abstracted by its shape together with an opaque payload;
the filtering code never looks inside tensors, and the restore path only
compares shapes. -/
structure Tensor where
  shape : List Nat
  data : Nat
deriving DecidableEq, Repr

/-- A parameter mapping (Python `dict[str, Tensor]`): an ordered association
list. Python dictionaries have unique keys; theorems that depend on key
uniqueness take it as a `Nodup` hypothesis. -/
abbrev SD := List (String × Tensor)

/-- Python `d[k]` as a total lookup: the value at the first occurrence of the
key, if any. -/
def alookup {α : Type} : List (String × α) → String → Option α
  | [], _ => none
  | (k', v) :: rest, k => if k' = k then some v else alookup rest k

/-- Python `k in d`: key membership in a mapping. -/
def hasKey {α : Type} (d : List (String × α)) (k : String) : Bool :=
  (alookup d k).isSome

/-- Python `d[k] = v`: update the value at `k` in place if present, otherwise
append the new entry at the end (dict insertion order). -/
def dinsert {α : Type} : List (String × α) → String → α → List (String × α)
  | [], k, v => [(k, v)]
  | (k', v') :: rest, k, v =>
    if k' = k then (k, v) :: rest else (k', v') :: dinsert rest k v

/-- Whether the character list `needle` is an initial segment of `hay`. -/
def charsIsInit : List Char → List Char → Bool
  | [], _ => true
  | _ :: _, [] => false
  | a :: as, b :: bs => a = b && charsIsInit as bs

/-- Whether `needle` occurs as a contiguous sublist of `hay`. -/
def containsSub (needle : List Char) : List Char → Bool
  | [] => needle.isEmpty
  | c :: rest => charsIsInit needle (c :: rest) || containsSub needle rest

/-- The characters of `hay` strictly before the first occurrence of `needle`
(all of `hay` when `needle` does not occur). -/
def takeUntilSub (needle : List Char) : List Char → List Char
  | [] => []
  | c :: rest =>
    if charsIsInit needle (c :: rest) then []
    else c :: takeUntilSub needle rest

/-- Python `sub in s` for strings: substring containment (`"" in s` is
always true, as in Python). -/
def strContains (s sub : String) : Bool :=
  containsSub sub.data s.data

/-- Python `k.split("lora_")[0]`: the prefix of `k` up to and excluding the
first occurrence of `"lora_"` (all of `k` when absent). -/
def loraSplitHead (k : String) : String :=
  String.mk (takeUntilSub "lora_".data k.data)

/-- Modelled from the spec: the adapter-method enumeration (`PeftType` from
the repository's `config` module, which is not among the sources). The spec
enumerates exactly `LOW_RANK_ADAPTER` (the code's `PeftType.LORA`) and
`PROMPT_BASED`. -/
inductive PeftType where
  | LORA
  | PROMPT_BASED
deriving DecidableEq, Repr

/-- The adapter descriptor (`model.peft_config`): the method and, for LoRA,
the bias mode string. -/
structure PeftConfig where
  peft_type : PeftType
  bias : String
deriving DecidableEq, Repr

/-- The model collaborator, reduced to what the two operations read and
write: its full parameter mapping (`model.state_dict()`), its adapter
descriptor (`model.peft_config`), the tensor reported by
`get_prompt_embedding_to_save`, the `weight` slot of
`model.prompt_encoder.embedding`, and the optional `modules_to_save`
substring set. -/
structure PeftModel where
  peft_config : PeftConfig
  state_dict : SD
  prompt_embedding : Tensor
  prompt_encoder_weight : Tensor
  modules_to_save : Option (List String)
deriving DecidableEq, Repr

/-- Modelled from the spec: `getPromptEmbeddingToSave()` of the model
collaborator (`model.get_prompt_embedding_to_save` is defined in the
repository's model module, not among the sources); it returns the model's
reported prompt-embedding tensor, treated as opaque. -/
def PeftModel.get_prompt_embedding_to_save (m : PeftModel) : Tensor :=
  m.prompt_embedding

/-- The errors the two operations can raise: `NotImplementedError` for an
unsupported bias mode, `KeyError` for a missing mapping key, and the
strict-load shape mismatch. -/
inductive PeftErr where
  | notImplemented
  | keyError (k : String)
  | sizeMismatch
deriving DecidableEq, Repr

/-- One iteration of the `bias == "lora_only"` loop (lines 42-48): for a key
containing `"lora_"`, copy its entry and, when the derived sibling bias key
is present in `state_dict`, copy that entry too. -/
def lora_only_step (state_dict to_return : SD) (k : String) : SD :=
  if strContains k "lora_" then
    let to_return1 := match alookup state_dict k with
      | some v => dinsert to_return k v
      | none => to_return
    let bias_name := loraSplitHead k ++ "bias"
    match alookup state_dict bias_name with
    | some bv => dinsert to_return1 bias_name bv
    | none => to_return1
  else to_return

/-- The `bias == "lora_only"` loop (lines 42-48): iterate over the keys of
`state_dict` starting from an empty `to_return`. -/
def lora_only_loop (state_dict : SD) : SD :=
  (state_dict.map Prod.fst).foldl (lora_only_step state_dict) []

/-- The LoRA branch of `get_peft_model_state_dict` (lines 37-50): filter by
bias mode, or raise `NotImplementedError` on any other bias value. -/
def lora_branch (bias : String) (state_dict : SD) : Except PeftErr SD :=
  if bias = "none" then
    Except.ok (state_dict.filter (fun kv => strContains kv.1 "lora_"))
  else if bias = "all" then
    Except.ok (state_dict.filter
      (fun kv => strContains kv.1 "lora_" || strContains kv.1 "bias"))
  else if bias = "lora_only" then
    Except.ok (lora_only_loop state_dict)
  else
    Except.error PeftErr.notImplemented

/-- One iteration of the `modules_to_save` loop (lines 56-58). -/
def mts_step (mods : List String) (acc : SD) (kv : String × Tensor) : SD :=
  if mods.any (fun m => strContains kv.1 m) then dinsert acc kv.1 kv.2
  else acc

/-- The `modules_to_save` pass of `get_peft_model_state_dict` (lines 55-58):
copy into `to_return` every entry of `state_dict` whose key contains one of
the declared substrings, overwriting method-derived entries. -/
def add_modules_to_save (mods : List String) (state_dict to_return : SD) : SD :=
  state_dict.foldl (mts_step mods) to_return

/-- The `if model.modules_to_save is not None` guard around the
`modules_to_save` pass (lines 55-58). -/
def apply_modules_to_save (model : PeftModel) (state_dict to_return : SD) :
    SD :=
  match model.modules_to_save with
  | none => to_return
  | some mods => add_modules_to_save mods state_dict to_return

/-- `get_peft_model_state_dict(model, state_dict=None)` (lines 19-59): the
extraction operation. -/
def get_peft_model_state_dict (model : PeftModel) (state_dict? : Option SD) :
    Except PeftErr SD :=
  let state_dict := match state_dict? with
    | none => model.state_dict
    | some sd => sd
  let base : Except PeftErr SD :=
    if model.peft_config.peft_type = PeftType.LORA then
      lora_branch model.peft_config.bias state_dict
    else
      Except.ok (dinsert [] "prompt_embeddings"
        model.get_prompt_embedding_to_save)
  Except.map (apply_modules_to_save model state_dict) base

/-- Modelled from the spec: `model.load_state_dict(sd, strict=False)` of the
external deep-learning framework. Per the spec's restore contract, keys of
the incoming mapping that are absent from or shape-incompatible with the
model's own mapping are tolerated; matching compatible keys take the
incoming value, everything else is untouched. -/
def load_state_dict_nonstrict (own incoming : SD) : SD :=
  own.map (fun kv => (kv.1,
    match alookup incoming kv.1 with
    | some v' => if v'.shape = kv.2.shape then v' else kv.2
    | none => kv.2))

/-- `set_peft_model_state_dict(model, peft_model_state_dict)` (lines 62-76):
the restore operation. The main mapping is loaded non-strictly; for
non-LoRA methods, `peft_model_state_dict["prompt_embeddings"]` is then
loaded strictly into the prompt encoder's embedding `weight` slot (a
`KeyError` when absent, a size-mismatch error when shape-incompatible). -/
def set_peft_model_state_dict (model : PeftModel) (psd : SD) :
    Except PeftErr PeftModel :=
  let model1 : PeftModel :=
    { model with state_dict := load_state_dict_nonstrict model.state_dict psd }
  if model.peft_config.peft_type ≠ PeftType.LORA then
    match alookup psd "prompt_embeddings" with
    | none => Except.error (PeftErr.keyError "prompt_embeddings")
    | some v =>
      if v.shape = model.prompt_encoder_weight.shape then
        Except.ok { model1 with prompt_encoder_weight := v }
      else
        Except.error PeftErr.sizeMismatch
  else
    Except.ok model1

/-! ## Association-list lemmas -/

theorem alookup_dinsert_self {α : Type} (l : List (String × α)) (k : String)
    (v : α) : alookup (dinsert l k v) k = some v := by
  induction l with
  | nil => simp [dinsert, alookup]
  | cons kv rest ih =>
    obtain ⟨k', v'⟩ := kv
    by_cases h : k' = k
    · simp [dinsert, h, alookup]
    · simp [dinsert, h, alookup, ih]

theorem alookup_dinsert_ne {α : Type} (l : List (String × α)) {k k' : String}
    (v : α) (h : k' ≠ k) : alookup (dinsert l k v) k' = alookup l k' := by
  induction l with
  | nil => simp [dinsert, alookup, Ne.symm h]
  | cons kv rest ih =>
    obtain ⟨a, b⟩ := kv
    by_cases ha : a = k
    · subst ha
      simp [dinsert, alookup, Ne.symm h]
    · simp only [dinsert, if_neg ha, alookup]
      by_cases hak : a = k'
      · simp [hak]
      · simp [hak, ih]

theorem hasKey_dinsert_of {α : Type} (l : List (String × α)) (k k' : String)
    (v : α) (h : hasKey l k' = true) : hasKey (dinsert l k v) k' = true := by
  by_cases hk : k' = k
  · subst hk
    simp [hasKey, alookup_dinsert_self]
  · simpa [hasKey, alookup_dinsert_ne l v hk] using h

theorem hasKey_dinsert_self {α : Type} (l : List (String × α)) (k : String)
    (v : α) : hasKey (dinsert l k v) k = true := by
  simp [hasKey, alookup_dinsert_self]

theorem alookup_map_value {α β : Type} (g : String → α → β)
    (l : List (String × α)) (k : String) :
    alookup (l.map (fun kv => (kv.1, g kv.1 kv.2))) k
      = (alookup l k).map (g k) := by
  induction l with
  | nil => simp [alookup]
  | cons kv rest ih =>
    obtain ⟨a, b⟩ := kv
    by_cases h : a = k
    · subst h
      simp [alookup]
    · simp [alookup, h, ih]

theorem alookup_filter_key (p : String → Bool) (l : SD) (k : String) :
    alookup (l.filter (fun kv => p kv.1)) k
      = if p k then alookup l k else none := by
  induction l with
  | nil => simp [alookup]
  | cons kv rest ih =>
    obtain ⟨a, b⟩ := kv
    by_cases ha : a = k
    · subst ha
      by_cases hp : p a
      · simp [List.filter, hp, alookup, ih]
      · simp [List.filter, hp, alookup, ih]
    · by_cases hp : p a
      · simp [List.filter, hp, alookup, ha, ih]
      · simp [List.filter, hp, alookup, ha, ih]

theorem mem_of_alookup_eq_some {α : Type} {l : List (String × α)}
    {k : String} {v : α} (h : alookup l k = some v) : (k, v) ∈ l := by
  induction l with
  | nil => simp [alookup] at h
  | cons kv rest ih =>
    obtain ⟨a, b⟩ := kv
    by_cases ha : a = k
    · subst ha
      simp [alookup] at h
      simp [h]
    · simp only [alookup, if_neg ha] at h
      exact List.mem_cons_of_mem _ (ih h)

theorem alookup_eq_some_of_mem_nodup {α : Type} {l : List (String × α)}
    (hnd : (l.map Prod.fst).Nodup) {k : String} {v : α} (h : (k, v) ∈ l) :
    alookup l k = some v := by
  induction l with
  | nil => simp at h
  | cons kv rest ih =>
    obtain ⟨a, b⟩ := kv
    simp only [List.map_cons, List.nodup_cons] at hnd
    rcases List.mem_cons.mp h with heq | hmem
    · obtain ⟨hk, hv⟩ := Prod.mk.injEq .. ▸ heq.symm
      simp [alookup, hk.symm, hv]
    · have hak : a ≠ k := by
        intro hak
        exact hnd.1 (hak ▸ List.mem_map_of_mem Prod.fst hmem)
      simp only [alookup, if_neg hak]
      exact ih hnd.2 hmem

theorem hasKey_iff_exists_mem {α : Type} {l : List (String × α)} {k : String} :
    hasKey l k = true ↔ ∃ v, (k, v) ∈ l := by
  constructor
  · intro h
    obtain ⟨v, hv⟩ := Option.isSome_iff_exists.mp h
    exact ⟨v, mem_of_alookup_eq_some hv⟩
  · rintro ⟨v, hv⟩
    induction l with
    | nil => simp at hv
    | cons kv rest ih =>
      obtain ⟨a, b⟩ := kv
      by_cases ha : a = k
      · simp [hasKey, alookup, ha]
      · rcases List.mem_cons.mp hv with heq | hmem
        · exact absurd (congrArg Prod.fst heq).symm ha
        · simpa [hasKey, alookup, ha] using ih hmem

/-! ## Fold invariants -/

theorem sound_dinsert {α : Type} {Q : String → α → Prop}
    {l : List (String × α)} (hl : ∀ k v, alookup l k = some v → Q k v)
    {a : String} {w : α} (ha : Q a w) :
    ∀ k v, alookup (dinsert l a w) k = some v → Q k v := by
  intro k v h
  by_cases hk : k = a
  · subst hk
    rw [alookup_dinsert_self] at h
    exact (Option.some.inj h) ▸ ha
  · rw [alookup_dinsert_ne l w hk] at h
    exact hl k v h

theorem lora_only_step_inv {Q : String → Tensor → Prop} (full : SD)
    (hfull : ∀ k v, alookup full k = some v → Q k v)
    {acc : SD} (hacc : ∀ k v, alookup acc k = some v → Q k v) (k0 : String) :
    ∀ k v, alookup (lora_only_step full acc k0) k = some v → Q k v := by
  unfold lora_only_step
  by_cases hc : strContains k0 "lora_"
  · simp only [if_pos hc]
    have h1 : ∀ k v,
        alookup (match alookup full k0 with
          | some v => dinsert acc k0 v
          | none => acc) k = some v → Q k v := by
      cases hv : alookup full k0 with
      | none => simpa using hacc
      | some w => exact sound_dinsert hacc (hfull _ _ hv)
    cases hb : alookup full (loraSplitHead k0 ++ "bias") with
    | none => simpa using h1
    | some bv => exact sound_dinsert h1 (hfull _ _ hb)
  · simp only [if_neg hc]
    exact hacc

theorem lora_foldl_inv {Q : String → Tensor → Prop} (full : SD)
    (hfull : ∀ k v, alookup full k = some v → Q k v) :
    ∀ (ks : List String) (acc : SD),
      (∀ k v, alookup acc k = some v → Q k v) →
      ∀ k v, alookup (ks.foldl (lora_only_step full) acc) k = some v → Q k v := by
  intro ks
  induction ks with
  | nil => intro acc hacc; simpa using hacc
  | cons k0 rest ih =>
    intro acc hacc
    simp only [List.foldl_cons]
    exact ih _ (lora_only_step_inv full hfull hacc k0)

theorem lora_only_loop_inv {Q : String → Tensor → Prop} (full : SD)
    (hfull : ∀ k v, alookup full k = some v → Q k v) :
    ∀ k v, alookup (lora_only_loop full) k = some v → Q k v := by
  refine lora_foldl_inv full hfull _ [] ?_
  intro k v h
  simp [alookup] at h

theorem lora_only_step_hasKey (full acc : SD) (k0 k : String)
    (h : hasKey acc k = true) :
    hasKey (lora_only_step full acc k0) k = true := by
  unfold lora_only_step
  by_cases hc : strContains k0 "lora_"
  · simp only [if_pos hc]
    have h1 : hasKey (match alookup full k0 with
        | some v => dinsert acc k0 v
        | none => acc) k = true := by
      cases hv : alookup full k0 with
      | none => simpa using h
      | some w => exact hasKey_dinsert_of _ _ _ _ h
    cases hb : alookup full (loraSplitHead k0 ++ "bias") with
    | none => simpa using h1
    | some bv => exact hasKey_dinsert_of _ _ _ _ h1
  · simpa [if_neg hc] using h

theorem lora_foldl_hasKey (full : SD) :
    ∀ (ks : List String) (acc : SD) (k : String), hasKey acc k = true →
      hasKey (ks.foldl (lora_only_step full) acc) k = true := by
  intro ks
  induction ks with
  | nil => intro acc k h; simpa using h
  | cons k0 rest ih =>
    intro acc k h
    simp only [List.foldl_cons]
    exact ih _ _ (lora_only_step_hasKey full acc k0 k h)

theorem lora_only_step_self (full acc : SD) (k : String)
    (hfull : hasKey full k = true) (hc : strContains k "lora_" = true) :
    hasKey (lora_only_step full acc k) k = true := by
  unfold lora_only_step
  rw [if_pos hc]
  obtain ⟨v, hv⟩ := Option.isSome_iff_exists.mp hfull
  cases hb : alookup full (loraSplitHead k ++ "bias") with
  | none => simp only [hv, hb]; exact hasKey_dinsert_self acc k v
  | some bv =>
    simp only [hv, hb]
    exact hasKey_dinsert_of _ _ _ _ (hasKey_dinsert_self acc k v)

theorem lora_only_step_bias (full acc : SD) (k : String) {bv : Tensor}
    (hc : strContains k "lora_" = true)
    (hb : alookup full (loraSplitHead k ++ "bias") = some bv) :
    hasKey (lora_only_step full acc k) (loraSplitHead k ++ "bias") = true := by
  unfold lora_only_step
  rw [if_pos hc]
  cases hv : alookup full k with
  | none => simp only [hv, hb]; exact hasKey_dinsert_self _ _ _
  | some w => simp only [hv, hb]; exact hasKey_dinsert_self _ _ _

theorem lora_loop_mem (full : SD) {k : String}
    (hfull : hasKey full k = true) (hc : strContains k "lora_" = true) :
    hasKey (lora_only_loop full) k = true := by
  have aux : ∀ (ks : List String) (acc : SD), k ∈ ks →
      hasKey (ks.foldl (lora_only_step full) acc) k = true := by
    intro ks
    induction ks with
    | nil => intro acc h; simp at h
    | cons k0 rest ih =>
      intro acc hmem
      rcases List.mem_cons.mp hmem with heq | hrest
      · subst heq
        simp only [List.foldl_cons]
        exact lora_foldl_hasKey full rest _ k
          (lora_only_step_self full acc k hfull hc)
      · simp only [List.foldl_cons]
        exact ih _ hrest
  obtain ⟨v, hv⟩ := hasKey_iff_exists_mem.mp hfull
  exact aux _ [] (List.mem_map_of_mem Prod.fst hv)

theorem lora_loop_bias_mem (full : SD) {k : String}
    (hfull : hasKey full k = true) (hc : strContains k "lora_" = true)
    (hb : hasKey full (loraSplitHead k ++ "bias") = true) :
    hasKey (lora_only_loop full) (loraSplitHead k ++ "bias") = true := by
  obtain ⟨bv, hbv⟩ := Option.isSome_iff_exists.mp hb
  have aux : ∀ (ks : List String) (acc : SD), k ∈ ks →
      hasKey (ks.foldl (lora_only_step full) acc)
        (loraSplitHead k ++ "bias") = true := by
    intro ks
    induction ks with
    | nil => intro acc h; simp at h
    | cons k0 rest ih =>
      intro acc hmem
      rcases List.mem_cons.mp hmem with heq | hrest
      · subst heq
        simp only [List.foldl_cons]
        exact lora_foldl_hasKey full rest _ _
          (lora_only_step_bias full acc k hc hbv)
      · simp only [List.foldl_cons]
        exact ih _ hrest
  obtain ⟨v, hv⟩ := hasKey_iff_exists_mem.mp hfull
  exact aux _ [] (List.mem_map_of_mem Prod.fst hv)

theorem mts_step_inv {Q : String → Tensor → Prop} (mods : List String)
    {acc : SD} (hacc : ∀ k v, alookup acc k = some v → Q k v)
    (kv : String × Tensor) (hkv : Q kv.1 kv.2) :
    ∀ k v, alookup (mts_step mods acc kv) k = some v → Q k v := by
  unfold mts_step
  by_cases h : mods.any (fun m => strContains kv.1 m)
  · simp only [if_pos h]
    exact sound_dinsert hacc hkv
  · simp only [if_neg h]
    exact hacc

theorem mts_foldl_inv {Q : String → Tensor → Prop} (mods : List String) :
    ∀ (l : List (String × Tensor)) (acc : SD),
      (∀ kv ∈ l, Q kv.1 kv.2) →
      (∀ k v, alookup acc k = some v → Q k v) →
      ∀ k v, alookup (l.foldl (mts_step mods) acc) k = some v → Q k v := by
  intro l
  induction l with
  | nil => intro acc _ hacc; simpa using hacc
  | cons kv rest ih =>
    intro acc hl hacc
    simp only [List.foldl_cons]
    exact ih _ (fun x hx => hl x (List.mem_cons_of_mem _ hx))
      (mts_step_inv mods hacc kv (hl kv (List.mem_cons_self _ _)))

theorem mts_step_hasKey (mods : List String) (acc : SD) (kv : String × Tensor)
    (k : String) (h : hasKey acc k = true) :
    hasKey (mts_step mods acc kv) k = true := by
  unfold mts_step
  by_cases hc : mods.any (fun m => strContains kv.1 m)
  · simp only [if_pos hc]
    exact hasKey_dinsert_of _ _ _ _ h
  · simp only [if_neg hc]
    exact h

theorem mts_foldl_hasKey (mods : List String) :
    ∀ (l : List (String × Tensor)) (acc : SD) (k : String),
      hasKey acc k = true →
      hasKey (l.foldl (mts_step mods) acc) k = true := by
  intro l
  induction l with
  | nil => intro acc k h; simpa using h
  | cons kv rest ih =>
    intro acc k h
    simp only [List.foldl_cons]
    exact ih _ _ (mts_step_hasKey mods acc kv k h)

theorem alookup_mts_foldl_of_not_mem (mods : List String) :
    ∀ (l : List (String × Tensor)) (acc : SD) (k : String),
      k ∉ l.map Prod.fst →
      alookup (l.foldl (mts_step mods) acc) k = alookup acc k := by
  intro l
  induction l with
  | nil => intro acc k _; rfl
  | cons kv rest ih =>
    intro acc k hk
    simp only [List.map_cons, List.mem_cons, not_or] at hk
    simp only [List.foldl_cons]
    rw [ih _ _ hk.2]
    unfold mts_step
    by_cases hc : mods.any (fun m => strContains kv.1 m)
    · simp only [if_pos hc]
      exact alookup_dinsert_ne acc kv.2 hk.1
    · simp only [if_neg hc]

theorem mts_overwrite (mods : List String) :
    ∀ (l : List (String × Tensor)) (acc : SD) (k : String) (v : Tensor),
      (l.map Prod.fst).Nodup → (k, v) ∈ l →
      mods.any (fun m => strContains k m) = true →
      alookup (l.foldl (mts_step mods) acc) k = some v := by
  intro l
  induction l with
  | nil => intro acc k v _ hmem; simp at hmem
  | cons kv rest ih =>
    intro acc k v hnd hmem hany
    simp only [List.map_cons, List.nodup_cons] at hnd
    rcases List.mem_cons.mp hmem with heq | hrest
    · have hk1 : kv.1 = k := (congrArg Prod.fst heq).symm
      have hnot : k ∉ rest.map Prod.fst := hk1 ▸ hnd.1
      simp only [List.foldl_cons]
      rw [alookup_mts_foldl_of_not_mem mods rest _ k hnot]
      unfold mts_step
      rw [hk1, if_pos hany, ← heq]
      exact alookup_dinsert_self acc k v
    · simp only [List.foldl_cons]
      exact ih _ k v hnd.2 hrest hany

/-! ## Extraction and restore lemmas -/

theorem except_map_ok {α β ε : Type} {f : α → β} {e : Except ε α} {r : β}
    (h : Except.map f e = Except.ok r) : ∃ t, e = Except.ok t ∧ r = f t := by
  cases e with
  | error err => simp [Except.map] at h
  | ok t => exact ⟨t, rfl, (Except.ok.inj h).symm⟩

theorem get_some_eq (model : PeftModel) (full : SD) :
    get_peft_model_state_dict model (some full)
      = Except.map (apply_modules_to_save model full)
          (if model.peft_config.peft_type = PeftType.LORA then
            lora_branch model.peft_config.bias full
          else
            Except.ok (dinsert [] "prompt_embeddings"
              model.get_prompt_embedding_to_save)) := rfl

theorem get_none_eq (model : PeftModel) :
    get_peft_model_state_dict model none
      = get_peft_model_state_dict model (some model.state_dict) := rfl

theorem not_hasKey_not_mem_keys {l : SD} {k : String}
    (h : hasKey l k = false) : k ∉ l.map Prod.fst := by
  intro hmem
  obtain ⟨kv, hkv, hfst⟩ := List.mem_map.mp hmem
  have : hasKey l k = true :=
    hasKey_iff_exists_mem.mpr ⟨kv.2, by rw [← hfst]; exact hkv⟩
  simp [this] at h

/-- Every entry of an extraction result is either an entry of the input
mapping, or the method-derived `"prompt_embeddings"` entry of a non-LoRA
method. -/
theorem extract_sound (model : PeftModel) (full res : SD)
    (hnd : (full.map Prod.fst).Nodup)
    (h : get_peft_model_state_dict model (some full) = Except.ok res) :
    ∀ k v, alookup res k = some v →
      alookup full k = some v ∨
      (k = "prompt_embeddings" ∧ v = model.prompt_embedding ∧
        model.peft_config.peft_type ≠ PeftType.LORA) := by
  rw [get_some_eq] at h
  obtain ⟨base, hbase, hres⟩ := except_map_ok h
  have hQfull : ∀ k v, alookup full k = some v →
      alookup full k = some v ∨
      (k = "prompt_embeddings" ∧ v = model.prompt_embedding ∧
        model.peft_config.peft_type ≠ PeftType.LORA) :=
    fun _ _ hv => Or.inl hv
  have hbase_sound : ∀ k v, alookup base k = some v →
      alookup full k = some v ∨
      (k = "prompt_embeddings" ∧ v = model.prompt_embedding ∧
        model.peft_config.peft_type ≠ PeftType.LORA) := by
    by_cases hty : model.peft_config.peft_type = PeftType.LORA
    · rw [if_pos hty] at hbase
      unfold lora_branch at hbase
      split_ifs at hbase with h1 h2 h3
      · have hbeq := Except.ok.inj hbase
        intro k v hkv
        rw [← hbeq, alookup_filter_key (fun k => strContains k "lora_")] at hkv
        by_cases hp : strContains k "lora_" = true
        · rw [if_pos hp] at hkv
          exact Or.inl hkv
        · rw [if_neg hp] at hkv
          cases hkv
      · have hbeq := Except.ok.inj hbase
        intro k v hkv
        rw [← hbeq, alookup_filter_key
          (fun k => strContains k "lora_" || strContains k "bias")] at hkv
        by_cases hp : (strContains k "lora_" || strContains k "bias") = true
        · rw [if_pos hp] at hkv
          exact Or.inl hkv
        · rw [if_neg hp] at hkv
          cases hkv
      · have hbeq := Except.ok.inj hbase
        rw [← hbeq]
        exact lora_only_loop_inv full hQfull
    · rw [if_neg hty] at hbase
      have hbeq := Except.ok.inj hbase
      intro k v hkv
      rw [← hbeq] at hkv
      simp only [dinsert, alookup] at hkv
      split_ifs at hkv with hk
      exact Or.inr ⟨hk.symm, (Option.some.inj hkv).symm, hty⟩
  cases hm : model.modules_to_save with
  | none =>
    rw [hres]
    unfold apply_modules_to_save
    rw [hm]
    exact hbase_sound
  | some mods =>
    rw [hres]
    unfold apply_modules_to_save
    rw [hm]
    unfold add_modules_to_save
    exact mts_foldl_inv mods full base
      (fun kv hkv => Or.inl (alookup_eq_some_of_mem_nodup hnd hkv))
      hbase_sound

/-- For a non-LoRA method on a mapping without a literal
`"prompt_embeddings"` key, the extraction result binds
`"prompt_embeddings"` to the model's reported prompt embedding. -/
theorem extract_prompt_key (model : PeftModel) (full res : SD)
    (hty : model.peft_config.peft_type ≠ PeftType.LORA)
    (hnope : hasKey full "prompt_embeddings" = false)
    (h : get_peft_model_state_dict model (some full) = Except.ok res) :
    alookup res "prompt_embeddings" = some model.prompt_embedding := by
  rw [get_some_eq] at h
  obtain ⟨base, hbase, hres⟩ := except_map_ok h
  rw [if_neg hty] at hbase
  have hbeq := Except.ok.inj hbase
  have hlook : alookup base "prompt_embeddings" = some model.prompt_embedding := by
    rw [← hbeq]
    simp [dinsert, alookup, PeftModel.get_prompt_embedding_to_save]
  cases hm : model.modules_to_save with
  | none =>
    rw [hres]
    unfold apply_modules_to_save
    rw [hm]
    exact hlook
  | some mods =>
    rw [hres]
    unfold apply_modules_to_save
    rw [hm]
    unfold add_modules_to_save
    rw [alookup_mts_foldl_of_not_mem mods full base "prompt_embeddings"
      (not_hasKey_not_mem_keys hnope)]
    exact hlook

/-- For a valid descriptor, extraction never raises. -/
theorem get_ok_of_valid (model : PeftModel) (full : SD)
    (hvalid : model.peft_config.peft_type = PeftType.LORA →
      model.peft_config.bias = "none" ∨ model.peft_config.bias = "all" ∨
      model.peft_config.bias = "lora_only") :
    ∃ res, get_peft_model_state_dict model (some full) = Except.ok res := by
  rw [get_some_eq]
  by_cases hty : model.peft_config.peft_type = PeftType.LORA
  · rw [if_pos hty]
    have hok : ∃ t, lora_branch model.peft_config.bias full = Except.ok t := by
      rcases hvalid hty with h | h | h <;>
        · rw [h]
          unfold lora_branch
          simp
    obtain ⟨t, ht⟩ := hok
    exact ⟨_, by rw [ht]; rfl⟩
  · rw [if_neg hty]
    exact ⟨_, rfl⟩

theorem alookup_load_nonstrict (own incoming : SD) (k : String) :
    alookup (load_state_dict_nonstrict own incoming) k
      = (alookup own k).map (fun v =>
          match alookup incoming k with
          | some v' => if v'.shape = v.shape then v' else v
          | none => v) := by
  exact alookup_map_value
    (fun k v => match alookup incoming k with
      | some v' => if v'.shape = v.shape then v' else v
      | none => v) own k

theorem set_lora_eq (model : PeftModel) (psd : SD)
    (hty : model.peft_config.peft_type = PeftType.LORA) :
    set_peft_model_state_dict model psd = Except.ok
      { model with state_dict := load_state_dict_nonstrict model.state_dict psd } := by
  unfold set_peft_model_state_dict
  simp [hty]

theorem set_prompt_eq (model : PeftModel) (psd : SD) (v : Tensor)
    (hty : model.peft_config.peft_type ≠ PeftType.LORA)
    (hv : alookup psd "prompt_embeddings" = some v)
    (hshape : v.shape = model.prompt_encoder_weight.shape) :
    set_peft_model_state_dict model psd = Except.ok
      { model with
          state_dict := load_state_dict_nonstrict model.state_dict psd,
          prompt_encoder_weight := v } := by
  have hmain : set_peft_model_state_dict model psd
      = (if v.shape = model.prompt_encoder_weight.shape then
          Except.ok { model with
            state_dict := load_state_dict_nonstrict model.state_dict psd,
            prompt_encoder_weight := v }
        else Except.error PeftErr.sizeMismatch) := by
    unfold set_peft_model_state_dict
    rw [if_pos hty, hv]
  rw [hmain, if_pos hshape]

theorem alookup_shape_of_schema {A B : SD}
    (h : B.map (fun kv => (kv.1, kv.2.shape))
       = A.map (fun kv => (kv.1, kv.2.shape))) (k : String) :
    (alookup B k).map Tensor.shape = (alookup A k).map Tensor.shape := by
  have hB := alookup_map_value (fun _ v => Tensor.shape v) B k
  have hA := alookup_map_value (fun _ v => Tensor.shape v) A k
  rw [← hB, ← hA, h]

/-- Key set and values of a key-predicate filter of a mapping. -/
theorem filter_keyset (p : String → Bool) (full : SD) :
    (∀ k, hasKey (full.filter (fun kv => p kv.1)) k = (hasKey full k && p k)) ∧
    (∀ k v, alookup (full.filter (fun kv => p kv.1)) k = some v →
      alookup full k = some v) := by
  constructor
  · intro k
    unfold hasKey
    rw [alookup_filter_key]
    cases hpk : p k with
    | true => simp
    | false => simp
  · intro k v h
    rw [alookup_filter_key] at h
    split_ifs at h
    exact h

/-! ## Concrete instances for counterexamples and witnesses -/

def tA : Tensor := ⟨[2, 2], 1⟩
def tB : Tensor := ⟨[2], 2⟩
def tC : Tensor := ⟨[3], 3⟩
def tD : Tensor := ⟨[4], 4⟩

/-- A LoRA model with `bias = "none"` that declares `modules_to_save`. -/
def c4Model : PeftModel :=
  { peft_config := { peft_type := PeftType.LORA, bias := "none" },
    state_dict := [("model.classifier.weight", tA)],
    prompt_embedding := tB,
    prompt_encoder_weight := tB,
    modules_to_save := some ["classifier"] }

/-- A LoRA model with `bias = "none"` and no `modules_to_save`. -/
def c4wModel : PeftModel :=
  { peft_config := { peft_type := PeftType.LORA, bias := "none" },
    state_dict := [("base.lora_A", tA), ("base.bias", tC), ("other.weight", tD)],
    prompt_embedding := tB,
    prompt_encoder_weight := tB,
    modules_to_save := none }

/-! ## Claim C4 -/

/-- Claim C4 as stated: with method LoRA and `bias_mode = NONE`, for every
input mapping the extraction result's key set is exactly the input keys
containing `"lora_"`, each mapped to its input value. -/
def ClaimC4 : Prop :=
  ∀ (model : PeftModel) (full res : SD),
    model.peft_config.peft_type = PeftType.LORA →
    model.peft_config.bias = "none" →
    get_peft_model_state_dict model (some full) = Except.ok res →
    (∀ k, hasKey res k = (hasKey full k && strContains k "lora_")) ∧
    (∀ k v, alookup res k = some v → alookup full k = some v)

/-- C4 fails as stated: when the model declares `modules_to_save`, keys
without `"lora_"` can enter the result (here `"model.classifier.weight"`). -/
theorem c4_counterexample : ¬ ClaimC4 := by
  intro h
  have h2 := (h c4Model c4Model.state_dict
    [("model.classifier.weight", tA)] rfl rfl rfl).1 "model.classifier.weight"
  exact absurd h2 (by decide)

/-- C4 amended: additionally assuming the model declares no
`modules_to_save`, with method LoRA and `bias_mode = NONE` the extraction
result's key set is exactly the input keys containing `"lora_"`, each
mapped to its input value. -/
theorem c4_keyset_bias_none (model : PeftModel) (full res : SD)
    (hty : model.peft_config.peft_type = PeftType.LORA)
    (hb : model.peft_config.bias = "none")
    (hmts : model.modules_to_save = none)
    (h : get_peft_model_state_dict model (some full) = Except.ok res) :
    (∀ k, hasKey res k = (hasKey full k && strContains k "lora_")) ∧
    (∀ k v, alookup res k = some v → alookup full k = some v) := by
  rw [get_some_eq, if_pos hty, hb] at h
  have hred : lora_branch "none" full
      = Except.ok (full.filter (fun kv => strContains kv.1 "lora_")) := rfl
  rw [hred] at h
  obtain ⟨t, ht, hres⟩ := except_map_ok h
  have ht2 : t = full.filter (fun kv => strContains kv.1 "lora_") :=
    (Except.ok.inj ht).symm
  unfold apply_modules_to_save at hres
  rw [hmts] at hres
  rw [hres, ht2]
  exact filter_keyset (fun k => strContains k "lora_") full

/-- Witness for the amended C4 at a concrete model. -/
theorem c4_keyset_bias_none_witness :
    hasKey [("base.lora_A", tA)] "base.lora_A"
      = (hasKey c4wModel.state_dict "base.lora_A"
          && strContains "base.lora_A" "lora_") :=
  (c4_keyset_bias_none c4wModel c4wModel.state_dict [("base.lora_A", tA)]
    rfl rfl rfl rfl).1 "base.lora_A"

/-! ## Claim C5 -/

/-- A LoRA model with `bias = "all"` that declares `modules_to_save`. -/
def c5Model : PeftModel :=
  { peft_config := { peft_type := PeftType.LORA, bias := "all" },
    state_dict := [("model.classifier.weight", tA)],
    prompt_embedding := tB,
    prompt_encoder_weight := tB,
    modules_to_save := some ["classifier"] }

/-- A LoRA model with `bias = "all"` and no `modules_to_save`. -/
def c5wModel : PeftModel :=
  { peft_config := { peft_type := PeftType.LORA, bias := "all" },
    state_dict := [("base.lora_A", tA), ("base.lora_B", tB), ("base.bias", tC),
      ("other.weight", tD)],
    prompt_embedding := tB,
    prompt_encoder_weight := tB,
    modules_to_save := none }

/-- Claim C5 as stated: with method LoRA and `bias_mode = ALL`, for every
input mapping the extraction result's key set is exactly the input keys
containing `"lora_"` or `"bias"`, each mapped to its input value. -/
def ClaimC5 : Prop :=
  ∀ (model : PeftModel) (full res : SD),
    model.peft_config.peft_type = PeftType.LORA →
    model.peft_config.bias = "all" →
    get_peft_model_state_dict model (some full) = Except.ok res →
    (∀ k, hasKey res k
      = (hasKey full k && (strContains k "lora_" || strContains k "bias"))) ∧
    (∀ k v, alookup res k = some v → alookup full k = some v)

/-- C5 fails as stated: when the model declares `modules_to_save`, keys with
neither `"lora_"` nor `"bias"` can enter the result. -/
theorem c5_counterexample : ¬ ClaimC5 := by
  intro h
  have h2 := (h c5Model c5Model.state_dict
    [("model.classifier.weight", tA)] rfl rfl rfl).1 "model.classifier.weight"
  exact absurd h2 (by decide)

/-- C5 amended: additionally assuming the model declares no
`modules_to_save`, with method LoRA and `bias_mode = ALL` the extraction
result's key set is exactly the input keys containing `"lora_"` or
`"bias"`, each mapped to its input value. -/
theorem c5_keyset_bias_all (model : PeftModel) (full res : SD)
    (hty : model.peft_config.peft_type = PeftType.LORA)
    (hb : model.peft_config.bias = "all")
    (hmts : model.modules_to_save = none)
    (h : get_peft_model_state_dict model (some full) = Except.ok res) :
    (∀ k, hasKey res k
      = (hasKey full k && (strContains k "lora_" || strContains k "bias"))) ∧
    (∀ k v, alookup res k = some v → alookup full k = some v) := by
  rw [get_some_eq, if_pos hty, hb] at h
  have hred : lora_branch "all" full
      = Except.ok (full.filter
          (fun kv => strContains kv.1 "lora_" || strContains kv.1 "bias")) := rfl
  rw [hred] at h
  obtain ⟨t, ht, hres⟩ := except_map_ok h
  have ht2 : t = full.filter
      (fun kv => strContains kv.1 "lora_" || strContains kv.1 "bias") :=
    (Except.ok.inj ht).symm
  unfold apply_modules_to_save at hres
  rw [hmts] at hres
  rw [hres, ht2]
  exact filter_keyset (fun k => strContains k "lora_" || strContains k "bias") full

/-- Witness for the amended C5 at the spec's worked example: input
`{"base.lora_A": t1, "base.lora_B": t2, "base.bias": t3, "other.weight": t4}`
keeps exactly the first three keys. -/
theorem c5_keyset_bias_all_witness :
    hasKey [("base.lora_A", tA), ("base.lora_B", tB), ("base.bias", tC)]
        "other.weight"
      = (hasKey c5wModel.state_dict "other.weight"
          && (strContains "other.weight" "lora_"
              || strContains "other.weight" "bias")) :=
  (c5_keyset_bias_all c5wModel c5wModel.state_dict
    [("base.lora_A", tA), ("base.lora_B", tB), ("base.bias", tC)]
    rfl rfl rfl rfl).1 "other.weight"

/-! ## Claim C6 -/

/-- A prompt-based model with no `modules_to_save`. -/
def c6wModel : PeftModel :=
  { peft_config := { peft_type := PeftType.PROMPT_BASED, bias := "none" },
    state_dict := [("encoder.weight", tA), ("decoder.bias", tC)],
    prompt_embedding := tB,
    prompt_encoder_weight := tB,
    modules_to_save := none }

/-- C6: for a prompt-based method with no `modules_to_save`, extraction
returns exactly the single-entry mapping from `"prompt_embeddings"` to the
tensor reported by `get_prompt_embedding_to_save`; the full mapping
contributes nothing. -/
theorem c6_prompt_single_entry (model : PeftModel) (state_dict? : Option SD)
    (hty : model.peft_config.peft_type = PeftType.PROMPT_BASED)
    (hmts : model.modules_to_save = none) :
    get_peft_model_state_dict model state_dict?
      = Except.ok [("prompt_embeddings", model.get_prompt_embedding_to_save)] := by
  have hne : model.peft_config.peft_type ≠ PeftType.LORA := by
    rw [hty]
    intro hc
    cases hc
  cases state_dict? with
  | none =>
    rw [get_none_eq, get_some_eq, if_neg hne]
    simp [Except.map, apply_modules_to_save, hmts, dinsert]
  | some full =>
    rw [get_some_eq, if_neg hne]
    simp [Except.map, apply_modules_to_save, hmts, dinsert]

/-- Witness for C6 at a concrete prompt-based model. -/
theorem c6_prompt_single_entry_witness :
    get_peft_model_state_dict c6wModel none
      = Except.ok [("prompt_embeddings", c6wModel.get_prompt_embedding_to_save)] :=
  c6_prompt_single_entry c6wModel none rfl rfl

/-! ## Claim C7 -/

/-- A LoRA model with the unsupported bias mode `"bogus"`. -/
def c7wModel : PeftModel :=
  { peft_config := { peft_type := PeftType.LORA, bias := "bogus" },
    state_dict := [("base.lora_A", tA), ("base.bias", tC)],
    prompt_embedding := tB,
    prompt_encoder_weight := tB,
    modules_to_save := none }

/-- C7: with method LoRA and a bias mode outside
{`"none"`, `"all"`, `"lora_only"`}, extraction raises
`NotImplementedError`; the error result carries no mapping, so no partial
result is produced. -/
theorem c7_invalid_bias (model : PeftModel) (state_dict? : Option SD)
    (hty : model.peft_config.peft_type = PeftType.LORA)
    (hb1 : model.peft_config.bias ≠ "none")
    (hb2 : model.peft_config.bias ≠ "all")
    (hb3 : model.peft_config.bias ≠ "lora_only") :
    get_peft_model_state_dict model state_dict?
      = Except.error PeftErr.notImplemented := by
  have hlb : ∀ sd : SD, lora_branch model.peft_config.bias sd
      = Except.error PeftErr.notImplemented := by
    intro sd
    unfold lora_branch
    rw [if_neg hb1, if_neg hb2, if_neg hb3]
  cases state_dict? with
  | none =>
    rw [get_none_eq, get_some_eq, if_pos hty, hlb]
    rfl
  | some full =>
    rw [get_some_eq, if_pos hty, hlb]
    rfl

/-- Witness for C7 at bias mode `"bogus"`. -/
theorem c7_invalid_bias_witness :
    get_peft_model_state_dict c7wModel none
      = Except.error PeftErr.notImplemented :=
  c7_invalid_bias c7wModel none rfl (by decide) (by decide) (by decide)

/-! ## Claim C2 -/

theorem apply_mts_hasKey (model : PeftModel) (full acc : SD) (k : String)
    (h : hasKey acc k = true) :
    hasKey (apply_modules_to_save model full acc) k = true := by
  unfold apply_modules_to_save
  cases model.modules_to_save with
  | none => exact h
  | some mods => exact mts_foldl_hasKey mods full acc k h

/-- A LoRA model with `bias = "lora_only"`. -/
def c2wModel : PeftModel :=
  { peft_config := { peft_type := PeftType.LORA, bias := "lora_only" },
    state_dict := [("base.lora_A", tA), ("base.bias", tC), ("other.weight", tD)],
    prompt_embedding := tB,
    prompt_encoder_weight := tB,
    modules_to_save := none }

/-- C2: with method LoRA and `bias_mode = ADAPTER_ONLY` (`"lora_only"`),
every input key containing `"lora_"` is in the extraction result, and for
each such key the sibling key `prefix-before-lora_ ++ "bias"`, when present
in the input, is in the result as well. -/
theorem c2_lora_only_keys (model : PeftModel) (full res : SD)
    (hty : model.peft_config.peft_type = PeftType.LORA)
    (hb : model.peft_config.bias = "lora_only")
    (h : get_peft_model_state_dict model (some full) = Except.ok res) :
    ∀ k, hasKey full k = true → strContains k "lora_" = true →
      hasKey res k = true ∧
      (hasKey full (loraSplitHead k ++ "bias") = true →
        hasKey res (loraSplitHead k ++ "bias") = true) := by
  rw [get_some_eq, if_pos hty, hb] at h
  have hred : lora_branch "lora_only" full
      = Except.ok (lora_only_loop full) := rfl
  rw [hred] at h
  obtain ⟨t, ht, hres⟩ := except_map_ok h
  have ht2 : t = lora_only_loop full := (Except.ok.inj ht).symm
  intro k hk hc
  subst ht2
  rw [hres]
  constructor
  · exact apply_mts_hasKey model full _ k (lora_loop_mem full hk hc)
  · intro hbk
    exact apply_mts_hasKey model full _ _ (lora_loop_bias_mem full hk hc hbk)

/-- Witness for C2: key `"base.lora_A"` and its derived sibling
`"base.bias"` both end up in the result. -/
theorem c2_lora_only_keys_witness :
    hasKey [("base.lora_A", tA), ("base.bias", tC)] "base.lora_A" = true ∧
    (hasKey c2wModel.state_dict (loraSplitHead "base.lora_A" ++ "bias") = true →
      hasKey [("base.lora_A", tA), ("base.bias", tC)]
        (loraSplitHead "base.lora_A" ++ "bias") = true) :=
  c2_lora_only_keys c2wModel c2wModel.state_dict
    [("base.lora_A", tA), ("base.bias", tC)] rfl rfl rfl "base.lora_A" rfl rfl

/-! ## Claim C3 -/

/-- A prompt-based model declaring `modules_to_save = {"classifier"}`. -/
def c3wModel : PeftModel :=
  { peft_config := { peft_type := PeftType.PROMPT_BASED, bias := "none" },
    state_dict := [("model.classifier.weight", tD), ("encoder.weight", tA)],
    prompt_embedding := tB,
    prompt_encoder_weight := tB,
    modules_to_save := some ["classifier"] }

/-- C3: whenever the model declares `modules_to_save`, every input entry
whose key contains one of the declared substrings appears in the extraction
result with its input value, regardless of method and bias mode, and even
when a method-derived entry of the same key existed (the extras pass runs
last and overwrites). -/
theorem c3_modules_to_save_union (model : PeftModel) (full res : SD)
    (mods : List String)
    (hm : model.modules_to_save = some mods)
    (hnd : (full.map Prod.fst).Nodup)
    (h : get_peft_model_state_dict model (some full) = Except.ok res) :
    ∀ k v, alookup full k = some v →
      mods.any (fun m => strContains k m) = true →
      alookup res k = some v := by
  rw [get_some_eq] at h
  obtain ⟨base, hbase, hres⟩ := except_map_ok h
  rw [hres]
  unfold apply_modules_to_save
  rw [hm]
  unfold add_modules_to_save
  intro k v hv hany
  exact mts_overwrite mods full base k v hnd (mem_of_alookup_eq_some hv) hany

/-- Witness for C3: `"model.classifier.weight"` is kept with its input
value on a prompt-based model. -/
theorem c3_modules_to_save_union_witness :
    alookup [("prompt_embeddings", tB), ("model.classifier.weight", tD)]
        "model.classifier.weight" = some tD :=
  c3_modules_to_save_union c3wModel c3wModel.state_dict
    [("prompt_embeddings", tB), ("model.classifier.weight", tD)]
    ["classifier"] rfl (by decide) rfl "model.classifier.weight" tD rfl rfl

/-! ## Claim C10 -/

/-- A LoRA model with `bias = "lora_only"` and `modules_to_save`. -/
def c10wModel : PeftModel :=
  { peft_config := { peft_type := PeftType.LORA, bias := "lora_only" },
    state_dict := [("base.lora_A", tA), ("base.bias", tC),
      ("model.classifier.weight", tD)],
    prompt_embedding := tB,
    prompt_encoder_weight := tB,
    modules_to_save := some ["classifier"] }

/-- C10: with method LoRA and a valid bias mode, extraction only selects
entries: every key of the result is mapped to exactly its value in the
input mapping. -/
theorem c10_values_preserved (model : PeftModel) (full res : SD)
    (hty : model.peft_config.peft_type = PeftType.LORA)
    (hvalid : model.peft_config.bias = "none" ∨ model.peft_config.bias = "all"
      ∨ model.peft_config.bias = "lora_only")
    (hnd : (full.map Prod.fst).Nodup)
    (h : get_peft_model_state_dict model (some full) = Except.ok res) :
    ∀ k v, alookup res k = some v → alookup full k = some v := by
  intro k v hkv
  rcases extract_sound model full res hnd h k v hkv with h1 | h2
  · exact h1
  · exact absurd hty h2.2.2

/-- Witness for C10 on a `"lora_only"` model with extras. -/
theorem c10_values_preserved_witness :
    alookup c10wModel.state_dict "model.classifier.weight" = some tD :=
  c10_values_preserved c10wModel c10wModel.state_dict
    [("base.lora_A", tA), ("base.bias", tC), ("model.classifier.weight", tD)]
    rfl (Or.inr (Or.inr rfl)) (by decide) rfl
    "model.classifier.weight" tD rfl

/-! ## Claim C8 -/

/-- C8: restore raises if and only if the method is not LoRA and the
`"prompt_embeddings"` key is absent from the filtered mapping or
shape-incompatible with the prompt encoder's weight slot; in every other
case, including missing or extra keys in the non-strict main load, restore
completes without error. -/
theorem c8_restore_error_iff (model : PeftModel) (psd : SD) :
    (∃ e, set_peft_model_state_dict model psd = Except.error e) ↔
    (model.peft_config.peft_type ≠ PeftType.LORA ∧
      (alookup psd "prompt_embeddings" = none ∨
        ∃ v, alookup psd "prompt_embeddings" = some v ∧
          v.shape ≠ model.prompt_encoder_weight.shape)) := by
  unfold set_peft_model_state_dict
  by_cases hty : model.peft_config.peft_type ≠ PeftType.LORA
  · rw [if_pos hty]
    cases hv : alookup psd "prompt_embeddings" with
    | none => simp [hty]
    | some v =>
      by_cases hs : v.shape = model.prompt_encoder_weight.shape
      · simp [hty, hs]
      · simp [hty, hs]
  · rw [if_neg hty]
    simp [hty]

/-! ## Claim C9 -/

/-- State-threaded rendering of the extraction body: the source function
only ever reads the model and the supplied mapping (every write goes to the
local `to_return`), so each step threads the two through unchanged, and the
returned triple exposes the result together with the model and the caller's
mapping as they stand after the call. -/
def get_peft_model_state_dict_frame (model : PeftModel)
    (state_dict? : Option SD) : Except PeftErr SD × PeftModel × Option SD :=
  let state_dict : SD := match state_dict? with
    | none => model.state_dict
    | some sd => sd
  let base : Except PeftErr SD :=
    if model.peft_config.peft_type = PeftType.LORA then
      lora_branch model.peft_config.bias state_dict
    else
      Except.ok (dinsert [] "prompt_embeddings"
        model.get_prompt_embedding_to_save)
  (Except.map (apply_modules_to_save model state_dict) base, model, state_dict?)

/-- C9: extraction is a pure read: the state-threaded run returns the model
and the caller's mapping exactly as they were supplied, together with the
freshly built result of the pure extraction function. -/
theorem c9_extract_no_mutation :
    ∀ (model : PeftModel) (state_dict? : Option SD),
      get_peft_model_state_dict_frame model state_dict?
        = (get_peft_model_state_dict model state_dict?, model, state_dict?) :=
  fun _ _ => rfl

/-! ## Claim C1 -/

/-- Restored values: after the non-strict load of an extraction result into
a schema-compatible model, every result key that names a parameter of the
source model reads back the source model's pre-extraction value. -/
theorem restore_values (modelA modelB : PeftModel) (res : SD)
    (hschema : modelB.state_dict.map (fun kv => (kv.1, kv.2.shape))
             = modelA.state_dict.map (fun kv => (kv.1, kv.2.shape)))
    (hnd : (modelA.state_dict.map Prod.fst).Nodup)
    (hnope : hasKey modelA.state_dict "prompt_embeddings" = false)
    (hres : get_peft_model_state_dict modelA (some modelA.state_dict)
      = Except.ok res) :
    ∀ k, hasKey res k = true → hasKey modelA.state_dict k = true →
      alookup (load_state_dict_nonstrict modelB.state_dict res) k
        = alookup modelA.state_dict k := by
  intro k hkres hkA
  obtain ⟨v, hv⟩ := Option.isSome_iff_exists.mp hkres
  rcases extract_sound modelA modelA.state_dict res hnd hres k v hv with
    hfull | hpe2
  · have hshape := alookup_shape_of_schema hschema k
    rw [hfull] at hshape
    simp only [Option.map_some'] at hshape
    obtain ⟨w, hw, hws⟩ := Option.map_eq_some'.mp hshape
    rw [alookup_load_nonstrict, hw, hfull]
    simp [hv, hws]
  · rw [hpe2.1, hnope] at hkA
    cases hkA

/-- C1: the extract/restore round trip. For a model `modelB` freshly
constructed with the same adapter descriptor and parameter schema as
`modelA` (same descriptor, same parameter names and shapes, a
prompt-encoder slot matching the saved embedding, no literal
`"prompt_embeddings"` parameter, and a supported bias mode), extraction
from `modelA` succeeds, restoring the result into `modelB` succeeds, and
the adapter-relevant parameters of the restored model equal their
pre-extraction values in `modelA` (for LoRA every extracted key is such a
parameter; for prompt-based methods the prompt-encoder weight takes the
saved embedding). -/
theorem c1_roundtrip (modelA modelB : PeftModel)
    (hdesc : modelB.peft_config = modelA.peft_config)
    (hschema : modelB.state_dict.map (fun kv => (kv.1, kv.2.shape))
             = modelA.state_dict.map (fun kv => (kv.1, kv.2.shape)))
    (hnd : (modelA.state_dict.map Prod.fst).Nodup)
    (hpe : modelB.prompt_encoder_weight.shape = modelA.prompt_embedding.shape)
    (hnope : hasKey modelA.state_dict "prompt_embeddings" = false)
    (hvalid : modelA.peft_config.peft_type = PeftType.LORA →
      modelA.peft_config.bias = "none" ∨ modelA.peft_config.bias = "all" ∨
      modelA.peft_config.bias = "lora_only") :
    ∃ res modelB2,
      get_peft_model_state_dict modelA none = Except.ok res ∧
      set_peft_model_state_dict modelB res = Except.ok modelB2 ∧
      (∀ k, hasKey res k = true → hasKey modelA.state_dict k = true →
        alookup modelB2.state_dict k = alookup modelA.state_dict k) ∧
      (modelA.peft_config.peft_type ≠ PeftType.LORA →
        modelB2.prompt_encoder_weight = modelA.prompt_embedding) ∧
      (modelA.peft_config.peft_type = PeftType.LORA →
        ∀ k, hasKey res k = true → hasKey modelA.state_dict k = true) := by
  obtain ⟨res, hres⟩ := get_ok_of_valid modelA modelA.state_dict hvalid
  have hget : get_peft_model_state_dict modelA none = Except.ok res := by
    rw [get_none_eq]
    exact hres
  have hvalues := restore_values modelA modelB res hschema hnd hnope hres
  by_cases hty : modelA.peft_config.peft_type = PeftType.LORA
  · have htyB : modelB.peft_config.peft_type = PeftType.LORA := by
      rw [hdesc]
      exact hty
    refine ⟨res, _, hget, set_lora_eq modelB res htyB, ?_, ?_, ?_⟩
    · exact hvalues
    · intro hne
      exact absurd hty hne
    · intro _ k hkres
      obtain ⟨v, hv⟩ := Option.isSome_iff_exists.mp hkres
      rcases extract_sound modelA modelA.state_dict res hnd hres k v hv with
        hfull | hpe2
      · rw [hasKey, hfull]
        rfl
      · exact absurd hty hpe2.2.2
  · have htyB : modelB.peft_config.peft_type ≠ PeftType.LORA := by
      rw [hdesc]
      exact hty
    have hpk := extract_prompt_key modelA modelA.state_dict res hty hnope hres
    have hshape : modelA.prompt_embedding.shape
        = modelB.prompt_encoder_weight.shape := hpe.symm
    refine ⟨res, _,
      hget, set_prompt_eq modelB res modelA.prompt_embedding htyB hpk hshape,
      ?_, ?_, ?_⟩
    · exact hvalues
    · intro _
      rfl
    · intro hc
      exact absurd hc hty

/-- The model extracted from in the C1 witness. -/
def c1wModelA : PeftModel :=
  { peft_config := { peft_type := PeftType.LORA, bias := "lora_only" },
    state_dict := [("base.lora_A", tA), ("base.bias", tC)],
    prompt_embedding := tB,
    prompt_encoder_weight := tB,
    modules_to_save := none }

/-- A freshly constructed model with the same descriptor and schema as
`c1wModelA` but different parameter values. -/
def c1wModelB : PeftModel :=
  { peft_config := { peft_type := PeftType.LORA, bias := "lora_only" },
    state_dict := [("base.lora_A", ⟨[2, 2], 9⟩), ("base.bias", ⟨[3], 9⟩)],
    prompt_embedding := tB,
    prompt_encoder_weight := tB,
    modules_to_save := none }

/-- Witness for C1 on a concrete LoRA `"lora_only"` pair of models. -/
theorem c1_roundtrip_witness :
    ∃ res modelB2,
      get_peft_model_state_dict c1wModelA none = Except.ok res ∧
      set_peft_model_state_dict c1wModelB res = Except.ok modelB2 ∧
      (∀ k, hasKey res k = true → hasKey c1wModelA.state_dict k = true →
        alookup modelB2.state_dict k = alookup c1wModelA.state_dict k) ∧
      (c1wModelA.peft_config.peft_type ≠ PeftType.LORA →
        modelB2.prompt_encoder_weight = c1wModelA.prompt_embedding) ∧
      (c1wModelA.peft_config.peft_type = PeftType.LORA →
        ∀ k, hasKey res k = true → hasKey c1wModelA.state_dict k = true) :=
  c1_roundtrip c1wModelA c1wModelB rfl rfl (by decide) rfl rfl
    (fun _ => Or.inr (Or.inr rfl))

end Peft
